import Mathlib

/-!
Verification of the rust-web-markdown renderer core (src/lib.rs).

The Rust crate is generic over a `Context` trait (host capability
interface): an abstract `View` handle, `Handler<T>` callbacks, and a
`Setter<T>` cell.  We embed a free term model of that interface:

* `View` is an inductive term model of the element constructors
  (`el_with_attributes`, `el_hr`, `el_br`, `el_fragment`, `el_a`,
  `el_img`, `el_text`, `el_input_checkbox`), so that every View records
  exactly how it was built, in particular which click handler was
  attached.
* `Handler MouseEvent` is modelled as a function `MouseEvent → List Action`
  returning the ordered trace of host effects one invocation performs
  (`prevent_default`, `stop_propagation`, and `call_handler` to the
  caller-supplied `on_click` handler, the latter identified by an opaque
  id).  `Handler MarkdownMouseEvent` (the caller's `on_click`) and
  `Setter String` (the frontmatter cell) are opaque ids: the core only
  ever passes values to them, so the trace records those calls.

The `Renderer` tree builder lives in the crate's `render` module, whose
source is not part of this repository snapshot; it is modelled from the
specification (see `runRenderer` below).  Everything else is translated
directly from src/lib.rs.
-/

namespace Mdw

/-- Models `core::ops::Range<usize>`: half-open byte range `[start, stop)`.
The Rust field `end` is called `stop` here (`end` is a Lean keyword). -/
structure Range where
  start : Nat
  stop : Nat
deriving DecidableEq, Repr

/-- Models `web_sys::MouseEvent` as an opaque value distinguished by an id. -/
structure MouseEvent where
  id : Nat
deriving DecidableEq, Repr

/-- Models `MarkdownMouseEvent` (src/lib.rs lines 162-172): the original
mouse event paired with the corresponding source range. -/
structure MarkdownMouseEvent where
  mouse_event : MouseEvent
  position : Range
deriving DecidableEq, Repr

/-- One observable host effect performed when a click handler runs:
`preventDefault`/`stopPropagation` on the mouse event, or forwarding a
`MarkdownMouseEvent` to the handler with the given opaque id via
`Context::call_handler`. -/
inductive Action where
  | preventDefault (e : MouseEvent)
  | stopPropagation (e : MouseEvent)
  | callHandler (handler : Nat) (event : MarkdownMouseEvent)
deriving DecidableEq, Repr

/-- A `Context::Handler<MouseEvent>`: invoking it yields a trace of host
effects. -/
def ClickHandler : Type := MouseEvent → List Action

/-- Models `ElementAttributes` (src/lib.rs lines 16-21). -/
structure ElementAttributes where
  classes : List String := []
  style : Option String := none
  inner_html : Option String := none
  on_click : Option ClickHandler := none

/-- Models the `Default` impl for `ElementAttributes` (src/lib.rs 23-32). -/
instance : Inhabited ElementAttributes := ⟨{}⟩

/-- Models `HtmlElement` (src/lib.rs lines 34-52). -/
inductive HtmlElement where
  | Div
  | Span
  | Paragraph
  | BlockQuote
  | Ul
  | Ol (start : Int)
  | Li
  | Heading (level : Nat)
  | Table
  | Thead
  | Trow
  | Tcell
  | Italics
  | Bold
  | StrikeThrough
  | Pre
  | Code

/-- Free term model of `Context::View`: one constructor per element
construction primitive of the `Context` trait (src/lib.rs lines 64-78). -/
inductive View where
  | elWithAttributes (e : HtmlElement) (inside : View) (attributes : ElementAttributes)
  | hr (attributes : ElementAttributes)
  | br
  | fragment (children : List View)
  | a (children : View) (href : String)
  | img (src : String) (alt : String)
  | text (s : String)
  | inputCheckbox (checked : Bool) (attributes : ElementAttributes)

/-- Models `pulldown_cmark_wikilink::LinkType` (external, opaque to the
core: it is stored and passed through unchanged). -/
inductive LinkType where
  | inline
  | reference
  | referenceUnknown
  | collapsed
  | collapsedUnknown
  | shortcut
  | shortcutUnknown
  | autolink
  | email
  | wikiLink
deriving DecidableEq, Repr

/-- Models `LinkDescription<V>` (src/lib.rs lines 177-193) at `V = View`. -/
structure LinkDescription where
  url : String
  content : View
  title : String
  link_type : LinkType
  image : Bool

/-- Models `MdComponentProps<V>` (src/lib.rs lines 196-200) at `V = View`. -/
structure MdComponentProps where
  attributes : List (String × String)
  children : View

/-- Models `pulldown_cmark_wikilink::Options` (external parser extension
flags; `Options::all()` enables every one). -/
structure Options where
  tables : Bool
  footnotes : Bool
  strikethrough : Bool
  tasklists : Bool
  smart_punctuation : Bool
  heading_attributes : Bool
  math : Bool
deriving DecidableEq, Repr

/-- Models `Options::all()`: every extension flag enabled. -/
def Options.all : Options :=
  { tables := true, footnotes := true, strikethrough := true,
    tasklists := true, smart_punctuation := true,
    heading_attributes := true, math := true }

/-- Models a `Context` value together with its `MarkdownProps`
(src/lib.rs lines 203-220).  `on_click` and `frontmatter` are opaque
handler/setter ids (`Option Nat`); `render_links` and `components` carry
the caller-supplied `HtmlCallback`s as functions into the View model. -/
structure Ctx where
  on_click : Option Nat := none
  render_links : Option (LinkDescription → View) := none
  hard_line_breaks : Bool := false
  wikilinks : Bool := false
  parse_options : Option Options := none
  components : List (String × (MdComponentProps → View)) := []
  frontmatter : Option Nat := none
  theme : Option String := none

/-- Models `Context::el` (src/lib.rs lines 65-67): element with default
attributes. -/
def Ctx.el (_cx : Ctx) (e : HtmlElement) (inside : View) : View :=
  View.elWithAttributes e inside default

/-- Models `Context::make_md_handler` (src/lib.rs lines 83-99): builds a
mouse-event handler that packages the event with `position` into a
`MarkdownMouseEvent` and forwards it to the `on_click` handler when one
is registered. -/
def Ctx.make_md_handler (cx : Ctx) (position : Range) : ClickHandler :=
  fun x =>
    let click_event : MarkdownMouseEvent :=
      { mouse_event := x, position := position }
    match cx.on_click with
    | some cb => [Action.callHandler cb click_event]
    | none => []

/-- Models the closure built inside `Context::render_tasklist_marker`
(src/lib.rs lines 103-113): `prevent_default`, `stop_propagation`, then
forward the `MarkdownMouseEvent` to `on_click` if registered. -/
def Ctx.tasklist_callback (cx : Ctx) (position : Range) : ClickHandler :=
  fun e =>
    Action.preventDefault e :: Action.stopPropagation e ::
      (let click_event : MarkdownMouseEvent :=
        { mouse_event := e, position := position }
      match cx.on_click with
      | some cb => [Action.callHandler cb click_event]
      | none => [])

/-- Models `Context::render_tasklist_marker` (src/lib.rs lines 101-120):
a checkbox input carrying the tasklist click callback. -/
def Ctx.render_tasklist_marker (cx : Ctx) (m : Bool) (position : Range) : View :=
  View.inputCheckbox m { on_click := some (cx.tasklist_callback position) }

/-- Models `Context::render_rule` (src/lib.rs lines 122-128). -/
def Ctx.render_rule (cx : Ctx) (range : Range) : View :=
  View.hr { on_click := some (cx.make_md_handler range) }

/-- Models `Context::render_code` (src/lib.rs lines 131-138). -/
def Ctx.render_code (cx : Ctx) (s : String) (range : Range) : View :=
  View.elWithAttributes HtmlElement.Code (View.text s)
    { on_click := some (cx.make_md_handler range) }

/-- Models `Context::render_text` (src/lib.rs lines 141-148). -/
def Ctx.render_text (cx : Ctx) (s : String) (range : Range) : View :=
  View.elWithAttributes HtmlElement.Span (View.text s)
    { on_click := some (cx.make_md_handler range) }

/-- Models `Context::render_link` (src/lib.rs lines 151-159): delegate to
the `render_links` override when registered, otherwise build a default
anchor (`el_a`) for links and a default image (`el_img`) for images. -/
def Ctx.render_link (cx : Ctx) (link : LinkDescription) : View :=
  match cx.render_links, link.image with
  | some f, _ => f link
  | none, false => View.a link.content link.url
  | none, true => View.img link.url link.title

/-- The click handler attached to the outermost node of a View, when the
construction primitive that built it accepts `ElementAttributes`
(`el_with_attributes`, `el_hr`, `el_input_checkbox`); `el_a`, `el_img`,
`el_fragment`, `el_text` and `el_br` accept no attributes and so can
carry no handler. -/
def View.topClickHandler : View → Option ClickHandler
  | .elWithAttributes _ _ attrs => attrs.on_click
  | .hr attrs => attrs.on_click
  | .inputCheckbox _ attrs => attrs.on_click
  | .br => none
  | .fragment _ => none
  | .a _ _ => none
  | .img _ _ => none
  | .text _ => none

/-- The checked state of a checkbox View (`none` for any other View). -/
def View.checkedState : View → Option Bool
  | .inputCheckbox c _ => some c
  | _ => none

/-- Invoking the top-level click handler of a View on a mouse event:
`none` when no handler is attached, otherwise the trace of effects. -/
def View.invokeClick (v : View) (e : MouseEvent) : Option (List Action) :=
  v.topClickHandler.map (fun h => h e)

/-- Models the `Tag` vocabulary of the external tokenizer
(`pulldown_cmark_wikilink::Tag`), restricted to a representative subset:
the kinds the Tree Builder switches on that matter to the claims. -/
inductive Tag where
  | Paragraph
  | Heading (level : Nat)
  | BlockQuote
  | List (start : Option Int)
  | Item
  | Emphasis
  | Strong
  | Strikethrough
  | CodeBlock (lang : Option String)
  | Link (link_type : LinkType) (url : String) (title : String)
  | Image (link_type : LinkType) (url : String) (title : String)
  | MetadataBlock
deriving DecidableEq, Repr

/-- Models `pulldown_cmark_wikilink::Event`: structural `Start`/`End`
events delimiting nested constructs, and leaf events. -/
inductive Event where
  | Start (tag : Tag)
  | End (tag : Tag)
  | Text (s : String)
  | Code (s : String)
  | SoftBreak
  | HardBreak
  | Rule
  | TaskListMarker (checked : Bool)
deriving DecidableEq, Repr

/-- Models the preprocessing loop of `render_markdown` (src/lib.rs lines
233-239): when `hard_line_breaks` is set, every `SoftBreak` event in the
collected stream is overwritten with `HardBreak`; otherwise the stream is
left untouched. -/
def preprocess (hard_line_breaks : Bool) (stream : List (Event × Range)) :
    List (Event × Range) :=
  if hard_line_breaks then
    stream.map (fun p => (if p.1 = Event.SoftBreak then Event.HardBreak else p.1, p.2))
  else stream

/-- Union of two byte ranges (used for the spec's range-merge rule). -/
def Range.union (r s : Range) : Range :=
  { start := min r.start s.start, stop := max r.stop s.stop }

/-- Modelled from the spec: an Open Frame of the Tree Builder (§3): the
Tag, the ordered accumulator of already-built child views, the raw text
accumulated from interior text leaves (used by code blocks and the
metadata block), and the byte range accumulated so far. -/
structure Frame where
  tag : Tag
  children : List View
  rawText : String
  range : Range

/-- One item of the Tree Builder's output trace: a yielded top-level View,
or a frontmatter write `Context::set(setter, value)`. -/
inductive RItem where
  | yieldView (v : View)
  | setFrontmatter (setter : Nat) (value : String)

/-- Fatal invariant violations of the Tree Builder (spec §7): an `End`
whose tag does not match the top open frame, an `End` with no open frame,
or a `Start` still open at stream exhaustion. -/
inductive RErr where
  | tagMismatch (expected : Tag) (got : Tag)
  | endWithoutStart (tag : Tag)
  | unclosedStart (tag : Tag)
deriving DecidableEq, Repr

/-- Modelled from the spec (§4.1 step 3): the View built immediately for
a leaf event, delegating to the `Context` leaf renderers of src/lib.rs.
`Start`/`End` are not leaves; those arms are unreachable from
`runRenderer`, which handles them first. -/
def leafView (cx : Ctx) (e : Event) (r : Range) : View :=
  match e with
  | .Text s => cx.render_text s r
  | .Code s => cx.render_code s r
  | .SoftBreak => View.br
  | .HardBreak => View.br
  | .Rule => cx.render_rule r
  | .TaskListMarker m => cx.render_tasklist_marker m r
  | .Start _ => View.fragment []
  | .End _ => View.fragment []

/-- Raw-text contribution of a leaf event to the enclosing frame's
`rawText` accumulator (code blocks concatenate interior text, and the
metadata block's raw inner text is collected this way). -/
def leafRaw : Event → String
  | .Text s => s
  | .Code s => s
  | .SoftBreak => "\n"
  | .HardBreak => "\n"
  | _ => ""

/-- Modelled from the spec (§4.1 step 3): processing a leaf event —
append its View to the top frame's accumulator (extending the frame's
range and raw text), or yield it directly when the stack is empty.
Returns the new stack and the items yielded. -/
def stepLeaf (cx : Ctx) (e : Event) (r : Range) :
    List Frame → List Frame × List RItem
  | [] => ([], [RItem.yieldView (leafView cx e r)])
  | f :: fs =>
    ({ f with
        children := f.children ++ [leafView cx e r],
        rawText := f.rawText ++ leafRaw e,
        range := f.range.union r } :: fs, [])

/-- Modelled from the spec (§4.1 step 4 per-tag construction rules):
the composite View built when a structural construct closes, with the
range-bound click handler attached; `Link`/`Image` delegate to
`Context::render_link` (src/lib.rs).  `MetadataBlock` yields no View and
is handled separately in `runRenderer`. -/
def composite (cx : Ctx) (t : Tag) (children : List View) (rawText : String)
    (range : Range) : View :=
  let attrs : ElementAttributes := { on_click := some (cx.make_md_handler range) }
  match t with
  | .Paragraph => View.elWithAttributes .Paragraph (View.fragment children) attrs
  | .Heading n => View.elWithAttributes (.Heading n) (View.fragment children) attrs
  | .BlockQuote => View.elWithAttributes .BlockQuote (View.fragment children) attrs
  | .List none => View.elWithAttributes .Ul (View.fragment children) attrs
  | .List (some n) => View.elWithAttributes (.Ol n) (View.fragment children) attrs
  | .Item => View.elWithAttributes .Li (View.fragment children) attrs
  | .Emphasis => View.elWithAttributes .Italics (View.fragment children) attrs
  | .Strong => View.elWithAttributes .Bold (View.fragment children) attrs
  | .Strikethrough => View.elWithAttributes .StrikeThrough (View.fragment children) attrs
  | .CodeBlock _ =>
    View.elWithAttributes .Pre
      (View.elWithAttributes .Code (View.text rawText) default) attrs
  | .Link lt url title =>
    cx.render_link { url := url, content := View.fragment children,
                     title := title, link_type := lt, image := false }
  | .Image lt url title =>
    cx.render_link { url := url, content := View.fragment children,
                     title := title, link_type := lt, image := true }
  | .MetadataBlock => View.fragment children

/-- Modelled from the spec: `Renderer` (the crate's `render` module is
not part of this snapshot): the single-pass, stack-driven reducer of
§4.1.  `Start` pushes a frame; a leaf builds its View immediately; `End`
pops the top frame (tag mismatch and a missing frame are fatal), builds
the composite View and appends it to the parent frame or yields it at top
level; closing a `MetadataBlock` instead writes its raw inner text to the
frontmatter setter (when one is supplied) and yields no View; at stream
exhaustion a non-empty stack is fatal.  Returns the ordered output trace. -/
def runRenderer (cx : Ctx) :
    List (Event × Range) → List Frame → Except RErr (List RItem)
  | [], [] => .ok []
  | [], f :: _ => .error (.unclosedStart f.tag)
  | (e, r) :: rest, frames =>
    match e with
    | .Start t => runRenderer cx rest (⟨t, [], "", r⟩ :: frames)
    | .End t =>
      match frames with
      | [] => .error (.endWithoutStart t)
      | f :: fs =>
        if f.tag = t then
          if t = Tag.MetadataBlock then
            match cx.frontmatter with
            | some setter =>
              (runRenderer cx rest fs).map
                (fun tail => RItem.setFrontmatter setter f.rawText :: tail)
            | none => runRenderer cx rest fs
          else
            let v := composite cx t f.children f.rawText (f.range.union r)
            match fs with
            | [] =>
              (runRenderer cx rest []).map
                (fun tail => RItem.yieldView v :: tail)
            | p :: ps =>
              runRenderer cx rest
                ({ p with
                    children := p.children ++ [v],
                    range := p.range.union (f.range.union r) } :: ps)
        else .error (.tagMismatch f.tag t)
    | .Text s =>
      (runRenderer cx rest (stepLeaf cx (.Text s) r frames).1).map
        (fun tail => (stepLeaf cx (.Text s) r frames).2 ++ tail)
    | .Code s =>
      (runRenderer cx rest (stepLeaf cx (.Code s) r frames).1).map
        (fun tail => (stepLeaf cx (.Code s) r frames).2 ++ tail)
    | .SoftBreak =>
      (runRenderer cx rest (stepLeaf cx .SoftBreak r frames).1).map
        (fun tail => (stepLeaf cx .SoftBreak r frames).2 ++ tail)
    | .HardBreak =>
      (runRenderer cx rest (stepLeaf cx .HardBreak r frames).1).map
        (fun tail => (stepLeaf cx .HardBreak r frames).2 ++ tail)
    | .Rule =>
      (runRenderer cx rest (stepLeaf cx .Rule r frames).1).map
        (fun tail => (stepLeaf cx .Rule r frames).2 ++ tail)
    | .TaskListMarker m =>
      (runRenderer cx rest (stepLeaf cx (.TaskListMarker m) r frames).1).map
        (fun tail => (stepLeaf cx (.TaskListMarker m) r frames).2 ++ tail)

/-- The Views yielded at top level by an output trace, in order. -/
def viewsOf (items : List RItem) : List View :=
  items.filterMap (fun it =>
    match it with
    | .yieldView v => some v
    | .setFrontmatter _ _ => none)

/-- The frontmatter writes `(setter, value)` of an output trace, in order. -/
def writesOf (items : List RItem) : List (Nat × String) :=
  items.filterMap (fun it =>
    match it with
    | .yieldView _ => none
    | .setFrontmatter s v => some (s, v))

/-- Models one `Context::mount_dynamic_link` request
(src/lib.rs line 77). -/
structure MountRequest where
  rel : String
  href : String
  integrity : String
  crossorigin : String
deriving DecidableEq, Repr

/-- The fixed stylesheet mount request issued by `render_markdown`
(src/lib.rs lines 245-250). -/
def katexStylesheetMount : MountRequest :=
  { rel := "stylesheet",
    href := "https://cdn.jsdelivr.net/npm/katex@0.16.7/dist/katex.min.css",
    integrity := "sha384-3UiQGuEI4TTMaFmGIZumfRPtfKQ3trwQE2JgosJxCnGmQpL/lJdjpcHkaaFwHlcI",
    crossorigin := "anonymous" }

/-- Result of a completed render: the single fragment View, the
stylesheet mount requests issued, and the Tree Builder's output trace
(top-level Views and frontmatter writes in order). -/
structure RenderOutput where
  view : View
  mounts : List MountRequest
  items : List RItem

/-- Rendering a given token stream (the body of `render_markdown` after
tokenization, src/lib.rs lines 233-252): preprocess line breaks, fold the
stream through the `Renderer`, request the katex stylesheet mount, and
wrap the collected top-level Views into one fragment. -/
def renderStream (cx : Ctx) (stream : List (Event × Range)) :
    Except RErr RenderOutput :=
  (runRenderer cx (preprocess cx.hard_line_breaks stream) []).map
    (fun items =>
      { view := View.fragment (viewsOf items),
        mounts := [katexStylesheetMount],
        items := items })

/-- Models the option defaulting of `render_markdown` (src/lib.rs lines
228-229): caller options, or `Options::all()` when none were supplied. -/
def effectiveOptions (cx : Ctx) : Options :=
  cx.parse_options.getD Options.all

/-- Models `render_markdown` (src/lib.rs lines 222-253), abstracting the
external tokenizer `ParserOffsetIter::new_ext(source, *options, wikilinks)`
as a function from the effective options and the wikilinks flag to the
event stream. -/
def render_markdown (cx : Ctx)
    (tokenize : Options → Bool → List (Event × Range)) :
    Except RErr RenderOutput :=
  renderStream cx (tokenize (effectiveOptions cx) cx.wikilinks)

/-- The stack-discipline check the spec's balance property (§8, §7)
describes: every `Start` has a matching, properly nested `End` and no
`End` lacks its `Start`.  `stk` is the stack of currently open tags. -/
def checkNested : List Event → List Tag → Bool
  | [], [] => true
  | [], _ :: _ => false
  | Event.Start t :: rest, stk => checkNested rest (t :: stk)
  | Event.End _ :: _, [] => false
  | Event.End t :: rest, t' :: stk =>
    if t' = t then checkNested rest stk else false
  | Event.Text _ :: rest, stk => checkNested rest stk
  | Event.Code _ :: rest, stk => checkNested rest stk
  | Event.SoftBreak :: rest, stk => checkNested rest stk
  | Event.HardBreak :: rest, stk => checkNested rest stk
  | Event.Rule :: rest, stk => checkNested rest stk
  | Event.TaskListMarker _ :: rest, stk => checkNested rest stk

/-! ## Concrete instances used by witnesses and counterexamples -/

/-- A context with a registered `on_click` handler (id 7) and no
`render_links` override. -/
def cxClick : Ctx := { on_click := some 7 }

/-- A sample non-image link description. -/
def linkSample : LinkDescription :=
  { url := "http://x", content := View.text "link", title := "t",
    link_type := .inline, image := false }

/-- A sample image link description. -/
def imageSample : LinkDescription :=
  { url := "http://img", content := View.text "alt-child", title := "ttl",
    link_type := .inline, image := true }

/-! ## Claims about the leaf renderers and link resolution (src/lib.rs) -/

/-- C1: for every leaf construct rendered with byte range `[start, stop)`
via `render_text`, `render_code` or `render_rule`, the attached click
handler is exactly `make_md_handler` bound to that range, and invoking it
on any mouse event forwards a `MarkdownMouseEvent` holding that event and
exactly that range to the registered `on_click` handler. -/
theorem click_range_fidelity (cx : Ctx) (s : String) (range : Range) (cb : Nat)
    (h : cx.on_click = some cb) :
    ((cx.render_text s range).topClickHandler = some (cx.make_md_handler range) ∧
     (cx.render_code s range).topClickHandler = some (cx.make_md_handler range) ∧
     (cx.render_rule range).topClickHandler = some (cx.make_md_handler range)) ∧
    ∀ ev : MouseEvent, cx.make_md_handler range ev =
      [Action.callHandler cb { mouse_event := ev, position := range }] := by
  refine ⟨⟨rfl, rfl, rfl⟩, fun ev => ?_⟩
  simp [Ctx.make_md_handler, h]

/-- Witness for C1 at the concrete context `cxClick`, text `"hello"` and
range `[10, 15)`. -/
theorem click_range_fidelity_witness :
    ((cxClick.render_text "hello" ⟨10, 15⟩).topClickHandler
        = some (cxClick.make_md_handler ⟨10, 15⟩) ∧
     (cxClick.render_code "hello" ⟨10, 15⟩).topClickHandler
        = some (cxClick.make_md_handler ⟨10, 15⟩) ∧
     (cxClick.render_rule ⟨10, 15⟩).topClickHandler
        = some (cxClick.make_md_handler ⟨10, 15⟩)) ∧
    ∀ ev : MouseEvent, cxClick.make_md_handler ⟨10, 15⟩ ev =
      [Action.callHandler 7 { mouse_event := ev, position := ⟨10, 15⟩ }] :=
  click_range_fidelity cxClick "hello" ⟨10, 15⟩ 7 rfl

/-- C2: `render_link` delegates to the `render_links` override whenever
one is registered (regardless of the image flag); absent an override it
builds a default anchor (`el_a`: destination as href, accumulated child
View as content) for non-images and a default image (`el_img`:
destination as source, title as alt text, child content discarded)
for images. -/
theorem render_link_resolution (cx : Ctx) (link : LinkDescription) :
    (∀ f, cx.render_links = some f → cx.render_link link = f link) ∧
    (cx.render_links = none → link.image = false →
      cx.render_link link = View.a link.content link.url) ∧
    (cx.render_links = none → link.image = true →
      cx.render_link link = View.img link.url link.title) := by
  refine ⟨fun f hf => ?_, fun hn hi => ?_, fun hn hi => ?_⟩
  · simp [Ctx.render_link, hf]
  · simp [Ctx.render_link, hn, hi]
  · simp [Ctx.render_link, hn, hi]

/-- Witness for C2: the default-anchor and default-image branches at
`cxClick` (no override), and the override branch at a context whose
override returns a fixed text View. -/
theorem render_link_resolution_witness :
    cxClick.render_link linkSample = View.a (View.text "link") "http://x" ∧
    cxClick.render_link imageSample = View.img "http://img" "ttl" ∧
    ({ render_links := some (fun _ => View.text "custom") } : Ctx).render_link
        linkSample = View.text "custom" :=
  ⟨(render_link_resolution cxClick linkSample).2.1 rfl rfl,
   (render_link_resolution cxClick imageSample).2.2 rfl rfl,
   (render_link_resolution _ linkSample).1 _ rfl⟩

/-- C3: `render_tasklist_marker` with checked state `m` and range
`[start, stop)` builds a checkbox input with checked state `m` whose
click handler, on every invocation, first calls `prevent_default` and
`stop_propagation` on the mouse event and then forwards a
`MarkdownMouseEvent` carrying exactly that range to the registered
`on_click` handler. -/
theorem tasklist_marker_behavior (cx : Ctx) (m : Bool) (position : Range)
    (cb : Nat) (h : cx.on_click = some cb) :
    (cx.render_tasklist_marker m position).checkedState = some m ∧
    ∀ e : MouseEvent, (cx.render_tasklist_marker m position).invokeClick e =
      some [Action.preventDefault e, Action.stopPropagation e,
            Action.callHandler cb { mouse_event := e, position := position }] := by
  refine ⟨rfl, fun e => ?_⟩
  simp [View.invokeClick, Ctx.render_tasklist_marker, View.topClickHandler,
    Ctx.tasklist_callback, h]

/-- Witness for C3 at `cxClick`, an unchecked marker and range `[2, 5)`. -/
theorem tasklist_marker_behavior_witness :
    (cxClick.render_tasklist_marker false ⟨2, 5⟩).checkedState = some false ∧
    ∀ e : MouseEvent,
      (cxClick.render_tasklist_marker false ⟨2, 5⟩).invokeClick e =
        some [Action.preventDefault e, Action.stopPropagation e,
              Action.callHandler 7 { mouse_event := e, position := ⟨2, 5⟩ }] :=
  tasklist_marker_behavior cxClick false ⟨2, 5⟩ 7 rfl

/-- C8 counterexample: with an `on_click` handler registered and no
`render_links` override, the default anchor and image Views built by
`render_link` carry no click handler at all — `el_a` and `el_img` accept
no attributes, so no range-bound handler is attached to them, refuting
the claim that every View construction corresponding to a byte range
attaches one. -/
theorem default_link_views_lack_click_handler :
    (cxClick.render_link linkSample).topClickHandler = none ∧
    (cxClick.render_link imageSample).topClickHandler = none :=
  ⟨rfl, rfl⟩

/-- C8 amended: the leaf renderers (`render_text`, `render_code`,
`render_rule`, `render_tasklist_marker`) each attach a click handler
bound to their exact byte range, but the default anchor and image Views
built by `render_link` when no override is registered attach no click
handler. -/
theorem click_handler_attachment (cx : Ctx) :
    (∀ s range, (cx.render_text s range).topClickHandler
        = some (cx.make_md_handler range)) ∧
    (∀ s range, (cx.render_code s range).topClickHandler
        = some (cx.make_md_handler range)) ∧
    (∀ range, (cx.render_rule range).topClickHandler
        = some (cx.make_md_handler range)) ∧
    (∀ m range, (cx.render_tasklist_marker m range).topClickHandler
        = some (cx.tasklist_callback range)) ∧
    (cx.render_links = none →
      ∀ link, (cx.render_link link).topClickHandler = none) := by
  refine ⟨fun s range => rfl, fun s range => rfl, fun range => rfl,
    fun m range => rfl, fun hn link => ?_⟩
  rcases hlink : link.image with _ | _ <;>
    simp [Ctx.render_link, View.topClickHandler, hn, hlink]

/-- Witness for the amended C8 at `cxClick` and concrete links. -/
theorem click_handler_attachment_witness :
    (∀ s range, (cxClick.render_text s range).topClickHandler
        = some (cxClick.make_md_handler range)) ∧
    (∀ s range, (cxClick.render_code s range).topClickHandler
        = some (cxClick.make_md_handler range)) ∧
    (∀ range, (cxClick.render_rule range).topClickHandler
        = some (cxClick.make_md_handler range)) ∧
    (∀ m range, (cxClick.render_tasklist_marker m range).topClickHandler
        = some (cxClick.tasklist_callback range)) ∧
    (cxClick.render_links = none →
      ∀ link, (cxClick.render_link link).topClickHandler = none) :=
  click_handler_attachment cxClick

/-! ## Stream preprocessing, output fragment, mounts, and options -/

/-- Preprocessing an empty stream yields the empty stream. -/
theorem preprocess_nil (b : Bool) : preprocess b [] = [] := by
  cases b <;> rfl

/-- A context with the hard-line-breaks option enabled. -/
def cxHard : Ctx := { hard_line_breaks := true }

/-- A sample stream holding a soft break followed by text. -/
def sbStream : List (Event × Range) :=
  [(Event.SoftBreak, ⟨0, 1⟩), (Event.Text "a", ⟨1, 2⟩)]

/-- C4: when `hard_line_breaks` is set, the preprocessing pass replaces
every `SoftBreak` event with `HardBreak` (positions untouched) and no
`SoftBreak` survives it; when unset, the stream is returned unchanged.
The render pipeline hands the Tree Builder exactly the preprocessed
stream. -/
theorem soft_break_rewrite (cx : Ctx) (stream : List (Event × Range)) :
    (cx.hard_line_breaks = true →
      preprocess cx.hard_line_breaks stream
        = stream.map (fun p =>
            (if p.1 = Event.SoftBreak then Event.HardBreak else p.1, p.2)) ∧
      ∀ p ∈ preprocess cx.hard_line_breaks stream, p.1 ≠ Event.SoftBreak) ∧
    (cx.hard_line_breaks = false →
      preprocess cx.hard_line_breaks stream = stream) ∧
    renderStream cx stream
      = (runRenderer cx (preprocess cx.hard_line_breaks stream) []).map
          (fun items =>
            { view := View.fragment (viewsOf items),
              mounts := [katexStylesheetMount],
              items := items }) := by
  refine ⟨fun h => ⟨by rw [h]; rfl, ?_⟩, fun h => by rw [h]; rfl, rfl⟩
  intro p hp
  rw [h] at hp
  simp only [preprocess, if_true, List.mem_map] at hp
  obtain ⟨q, hq, rfl⟩ := hp
  dsimp only
  split
  · simp
  · next hne => exact hne

/-- Witness for C4 on `sbStream`: rewritten with the option on, untouched
with the option off. -/
theorem soft_break_rewrite_witness :
    (preprocess cxHard.hard_line_breaks sbStream
        = sbStream.map (fun p =>
            (if p.1 = Event.SoftBreak then Event.HardBreak else p.1, p.2)) ∧
      ∀ p ∈ preprocess cxHard.hard_line_breaks sbStream,
        p.1 ≠ Event.SoftBreak) ∧
    preprocess ({} : Ctx).hard_line_breaks sbStream = sbStream :=
  ⟨(soft_break_rewrite cxHard sbStream).1 rfl,
   (soft_break_rewrite {} sbStream).2.1 rfl⟩

/-- C7: whenever the Tree Builder completes on the (preprocessed) token
stream, `render_markdown` returns exactly one View: a fragment holding
all top-level block Views in document order; for the empty stream the
trace is empty and the result is the empty fragment. -/
theorem fragment_output (cx : Ctx)
    (tokenize : Options → Bool → List (Event × Range)) :
    (∀ items,
      runRenderer cx
          (preprocess cx.hard_line_breaks
            (tokenize (effectiveOptions cx) cx.wikilinks)) []
        = .ok items →
      render_markdown cx tokenize
        = .ok { view := View.fragment (viewsOf items),
                mounts := [katexStylesheetMount], items := items }) ∧
    (tokenize (effectiveOptions cx) cx.wikilinks = [] →
      render_markdown cx tokenize
        = .ok { view := View.fragment [], mounts := [katexStylesheetMount],
                items := [] }) := by
  constructor
  · intro items hitems
    unfold render_markdown renderStream
    rw [hitems]
    rfl
  · intro hempty
    unfold render_markdown renderStream
    rw [hempty, preprocess_nil]
    rfl

/-- Witness for C7: a one-rule document yields a fragment holding its
single top-level View; the empty document yields the empty fragment. -/
theorem fragment_output_witness :
    render_markdown cxClick (fun _ _ => [(Event.Rule, ⟨0, 3⟩)])
      = .ok { view := View.fragment [cxClick.render_rule ⟨0, 3⟩],
              mounts := [katexStylesheetMount],
              items := [RItem.yieldView (cxClick.render_rule ⟨0, 3⟩)] } ∧
    render_markdown cxClick (fun _ _ => [])
      = .ok { view := View.fragment [], mounts := [katexStylesheetMount],
              items := [] } :=
  ⟨(fragment_output cxClick (fun _ _ => [(Event.Rule, ⟨0, 3⟩)])).1
      [RItem.yieldView (cxClick.render_rule ⟨0, 3⟩)] rfl,
   (fragment_output cxClick (fun _ _ => [])).2 rfl⟩

/-- C9: every completed `render_markdown` call issues exactly one
stylesheet mount request, with the fixed katex URL, the fixed integrity
hash and crossorigin policy `anonymous`. -/
theorem stylesheet_mount_unconditional (cx : Ctx)
    (tokenize : Options → Bool → List (Event × Range)) (out : RenderOutput)
    (h : render_markdown cx tokenize = .ok out) :
    out.mounts = [katexStylesheetMount] ∧
    katexStylesheetMount =
      { rel := "stylesheet",
        href := "https://cdn.jsdelivr.net/npm/katex@0.16.7/dist/katex.min.css",
        integrity := "sha384-3UiQGuEI4TTMaFmGIZumfRPtfKQ3trwQE2JgosJxCnGmQpL/lJdjpcHkaaFwHlcI",
        crossorigin := "anonymous" } := by
  refine ⟨?_, rfl⟩
  unfold render_markdown renderStream at h
  cases hr : runRenderer cx
      (preprocess cx.hard_line_breaks
        (tokenize (effectiveOptions cx) cx.wikilinks)) [] with
  | error e => rw [hr] at h; exact absurd h (by simp [Except.map])
  | ok items =>
    rw [hr] at h
    simp only [Except.map] at h
    injection h with h
    rw [← h]

/-- Witness for C9 at a concrete context and the empty tokenizer. -/
theorem stylesheet_mount_unconditional_witness :
    ({ view := View.fragment [], mounts := [katexStylesheetMount],
       items := [] } : RenderOutput).mounts = [katexStylesheetMount] ∧
    katexStylesheetMount =
      { rel := "stylesheet",
        href := "https://cdn.jsdelivr.net/npm/katex@0.16.7/dist/katex.min.css",
        integrity := "sha384-3UiQGuEI4TTMaFmGIZumfRPtfKQ3trwQE2JgosJxCnGmQpL/lJdjpcHkaaFwHlcI",
        crossorigin := "anonymous" } :=
  stylesheet_mount_unconditional cxClick (fun _ _ => [])
    { view := View.fragment [], mounts := [katexStylesheetMount], items := [] }
    rfl

/-- C10: when the caller supplies no `parse_options`, the tokenizer is
invoked with `Options::all()`: every extension flag is enabled. -/
theorem default_parse_options_all (cx : Ctx)
    (tokenize : Options → Bool → List (Event × Range))
    (h : cx.parse_options = none) :
    effectiveOptions cx = Options.all ∧
    (effectiveOptions cx).tables = true ∧
    (effectiveOptions cx).footnotes = true ∧
    (effectiveOptions cx).strikethrough = true ∧
    (effectiveOptions cx).tasklists = true ∧
    (effectiveOptions cx).smart_punctuation = true ∧
    (effectiveOptions cx).heading_attributes = true ∧
    (effectiveOptions cx).math = true ∧
    render_markdown cx tokenize
      = renderStream cx (tokenize Options.all cx.wikilinks) := by
  have he : effectiveOptions cx = Options.all := by
    simp [effectiveOptions, h]
  exact ⟨he, by rw [he]; rfl, by rw [he]; rfl, by rw [he]; rfl,
    by rw [he]; rfl, by rw [he]; rfl, by rw [he]; rfl, by rw [he]; rfl,
    by unfold render_markdown; rw [he]⟩

/-- Witness for C10 at the default context (no parse options supplied). -/
theorem default_parse_options_all_witness :
    effectiveOptions {} = Options.all ∧
    (effectiveOptions {}).tables = true ∧
    (effectiveOptions {}).footnotes = true ∧
    (effectiveOptions {}).strikethrough = true ∧
    (effectiveOptions {}).tasklists = true ∧
    (effectiveOptions {}).smart_punctuation = true ∧
    (effectiveOptions {}).heading_attributes = true ∧
    (effectiveOptions {}).math = true ∧
    render_markdown {} (fun _ _ => [])
      = renderStream {} [] :=
  default_parse_options_all {} (fun _ _ => []) rfl

/-! ## Balance property: the Tree Builder aborts on malformed streams -/

/-- Whether an `Except` computation succeeded. -/
def succeeds {ε α : Type _} : Except ε α → Bool
  | .ok _ => true
  | .error _ => false

/-- Mapping over an `Except` preserves success. -/
theorem succeeds_map {ε α β : Type _} (r : Except ε α) (g : α → β) :
    succeeds (r.map g) = succeeds r := by
  cases r <;> rfl

/-- `stepLeaf` never changes the tags of the open-frame stack. -/
theorem stepLeaf_tags (cx : Ctx) (e : Event) (r : Range) (frames : List Frame) :
    ((stepLeaf cx e r frames).1).map Frame.tag = frames.map Frame.tag := by
  cases frames <;> rfl

/-- The Tree Builder succeeds exactly when the event stream respects the
stack discipline: `runRenderer` on any stream and open-frame stack
succeeds iff `checkNested` accepts the stream's events against the
stack's tags. -/
theorem runRenderer_succeeds (cx : Ctx) :
    ∀ (stream : List (Event × Range)) (frames : List Frame),
      succeeds (runRenderer cx stream frames)
        = checkNested (stream.map Prod.fst) (frames.map Frame.tag) := by
  intro stream
  induction stream with
  | nil =>
    intro frames
    cases frames with
    | nil => rfl
    | cons f fs => rfl
  | cons p rest ih =>
    obtain ⟨e, r⟩ := p
    intro frames
    cases e with
    | Start t =>
      simp only [runRenderer, List.map_cons, checkNested]
      exact ih _
    | End t =>
      cases frames with
      | nil => rfl
      | cons f fs =>
        simp only [runRenderer, List.map_cons, checkNested]
        by_cases htag : f.tag = t
        · rw [if_pos htag, if_pos htag]
          by_cases hmeta : t = Tag.MetadataBlock
          · rw [if_pos hmeta]
            cases hfm : cx.frontmatter with
            | some setter => rw [succeeds_map]; exact ih _
            | none => exact ih _
          · rw [if_neg hmeta]
            cases fs with
            | nil => rw [succeeds_map]; exact ih _
            | cons pfr ps => exact ih _
        · rw [if_neg htag, if_neg htag]
          rfl
    | Text s =>
      simp only [runRenderer, List.map_cons, checkNested, succeeds_map]
      rw [ih, stepLeaf_tags]
    | Code s =>
      simp only [runRenderer, List.map_cons, checkNested, succeeds_map]
      rw [ih, stepLeaf_tags]
    | SoftBreak =>
      simp only [runRenderer, List.map_cons, checkNested, succeeds_map]
      rw [ih, stepLeaf_tags]
    | HardBreak =>
      simp only [runRenderer, List.map_cons, checkNested, succeeds_map]
      rw [ih, stepLeaf_tags]
    | Rule =>
      simp only [runRenderer, List.map_cons, checkNested, succeeds_map]
      rw [ih, stepLeaf_tags]
    | TaskListMarker m =>
      simp only [runRenderer, List.map_cons, checkNested, succeeds_map]
      rw [ih, stepLeaf_tags]

/-- The event-level soft-break rewrite applied by the preprocessing pass. -/
def softToHard (e : Event) : Event :=
  if e = Event.SoftBreak then Event.HardBreak else e

/-- On events, preprocessing with the option on is exactly a map of
`softToHard`. -/
theorem preprocess_map_fst (stream : List (Event × Range)) :
    (preprocess true stream).map Prod.fst
      = (stream.map Prod.fst).map softToHard := by
  simp only [preprocess, if_true]
  rw [List.map_map, List.map_map]
  rfl

/-- Rewriting soft breaks to hard breaks touches no structural event, so
it preserves the stack discipline. -/
theorem checkNested_softToHard :
    ∀ (es : List Event) (stk : List Tag),
      checkNested (es.map softToHard) stk = checkNested es stk := by
  intro es
  induction es with
  | nil => intro stk; rfl
  | cons e rest ih =>
    intro stk
    cases e with
    | Start t => simp [softToHard, checkNested, ih]
    | End t =>
      cases stk with
      | nil => simp [softToHard, checkNested]
      | cons t' stk' =>
        by_cases h : t' = t
        · simp [softToHard, checkNested, h, ih]
        · simp [softToHard, checkNested, h]
    | Text s => simp [softToHard, checkNested, ih]
    | Code s => simp [softToHard, checkNested, ih]
    | SoftBreak => simp [softToHard, checkNested, ih]
    | HardBreak => simp [softToHard, checkNested, ih]
    | Rule => simp [softToHard, checkNested, ih]
    | TaskListMarker m => simp [softToHard, checkNested, ih]

/-- The stack discipline of a stream is invariant under preprocessing. -/
theorem checkNested_preprocess (b : Bool) (stream : List (Event × Range))
    (stk : List Tag) :
    checkNested ((preprocess b stream).map Prod.fst) stk
      = checkNested (stream.map Prod.fst) stk := by
  cases b with
  | false => rfl
  | true => rw [preprocess_map_fst, checkNested_softToHard]

/-- C6: on any event stream violating the Start/End stack discipline
(a `Start` with no matching `End`, an `End` with no open frame, or an
`End` whose tag does not match the top open frame's tag — exactly the
streams `checkNested` rejects), the render aborts with an error instead
of returning a partially built tree. -/
theorem unbalanced_stream_aborts (cx : Ctx) (stream : List (Event × Range))
    (h : checkNested (stream.map Prod.fst) [] = false) :
    ∃ err, renderStream cx stream = .error err := by
  have h2 : succeeds
      (runRenderer cx (preprocess cx.hard_line_breaks stream) []) = false := by
    rw [runRenderer_succeeds]
    simpa [checkNested_preprocess] using h
  cases hr : runRenderer cx (preprocess cx.hard_line_breaks stream) [] with
  | ok items => rw [hr] at h2; exact absurd h2 (by simp [succeeds])
  | error err =>
    refine ⟨err, ?_⟩
    unfold renderStream
    rw [hr]
    rfl

/-- Witness for C6: a lone unmatched `Start Paragraph` aborts the render. -/
theorem unbalanced_stream_aborts_witness :
    ∃ err, renderStream cxClick [(Event.Start Tag.Paragraph, ⟨0, 1⟩)]
      = .error err :=
  unbalanced_stream_aborts cxClick [(Event.Start Tag.Paragraph, ⟨0, 1⟩)] rfl

/-! ## Frontmatter extraction: at most one write, before any View -/

/-- Whether an event opens or closes a metadata block. -/
def isMetaEvent (e : Event) : Bool :=
  match e with
  | .Start t => decide (t = Tag.MetadataBlock)
  | .End t => decide (t = Tag.MetadataBlock)
  | .Text _ => false
  | .Code _ => false
  | .SoftBreak => false
  | .HardBreak => false
  | .Rule => false
  | .TaskListMarker _ => false

/-- Preprocessing introduces no metadata events. -/
theorem preprocess_noMeta (b : Bool) (stream : List (Event × Range))
    (h : ∀ p ∈ stream, isMetaEvent p.1 = false) :
    ∀ p ∈ preprocess b stream, isMetaEvent p.1 = false := by
  cases b with
  | false => exact h
  | true =>
    intro p hp
    simp only [preprocess, if_true, List.mem_map] at hp
    obtain ⟨q, hq, rfl⟩ := hp
    dsimp only
    split
    · rfl
    · exact h q hq

/-- A leaf step emits no frontmatter write. -/
theorem stepLeaf_noWrites (cx : Ctx) (e : Event) (r : Range)
    (frames : List Frame) :
    writesOf (stepLeaf cx e r frames).2 = [] := by
  cases frames <;> rfl

/-- `writesOf` distributes over concatenation of traces. -/
theorem writesOf_append (l1 l2 : List RItem) :
    writesOf (l1 ++ l2) = writesOf l1 ++ writesOf l2 :=
  List.filterMap_append l1 l2 _

/-- A render of a stream with no metadata events performs no frontmatter
write, whatever the open-frame stack. -/
theorem noMeta_noWrites (cx : Ctx) :
    ∀ (stream : List (Event × Range)) (frames : List Frame)
      (items : List RItem),
      (∀ p ∈ stream, isMetaEvent p.1 = false) →
      runRenderer cx stream frames = .ok items →
      writesOf items = [] := by
  intro stream
  induction stream with
  | nil =>
    intro frames items _ hrun
    cases frames with
    | nil => injection hrun with h; rw [← h]; rfl
    | cons f fs => simp [runRenderer] at hrun
  | cons p rest ih =>
    obtain ⟨e, r⟩ := p
    intro frames items hmeta hrun
    have hmetaRest : ∀ q ∈ rest, isMetaEvent q.1 = false :=
      fun q hq => hmeta q (List.mem_cons_of_mem _ hq)
    have hmetaHead : isMetaEvent e = false := hmeta (e, r) (List.mem_cons_self _ _)
    cases e
    case Start t =>
      simp only [runRenderer] at hrun
      exact ih _ _ hmetaRest hrun
    case End t =>
      have ht : ¬(t = Tag.MetadataBlock) := by
        simpa [isMetaEvent] using hmetaHead
      cases frames with
      | nil => simp [runRenderer] at hrun
      | cons f fs =>
        simp only [runRenderer] at hrun
        by_cases htag : f.tag = t
        · rw [if_pos htag, if_neg ht] at hrun
          cases fs with
          | nil =>
            cases hr2 : runRenderer cx rest [] with
            | error e2 => rw [hr2] at hrun; simp [Except.map] at hrun
            | ok tail =>
              rw [hr2] at hrun
              simp only [Except.map] at hrun
              injection hrun with h
              rw [← h]
              simpa [writesOf, List.filterMap_cons] using ih _ _ hmetaRest hr2
          | cons pfr ps =>
            exact ih _ _ hmetaRest hrun
        · rw [if_neg htag] at hrun
          simp at hrun
    all_goals {
      simp only [runRenderer] at hrun
      cases hr2 : runRenderer cx rest (stepLeaf cx _ r frames).1 with
      | error e2 => rw [hr2] at hrun; simp [Except.map] at hrun
      | ok tail =>
        rw [hr2] at hrun
        simp only [Except.map] at hrun
        injection hrun with h
        rw [← h, writesOf_append, stepLeaf_noWrites]
        simpa using ih _ _ hmetaRest hr2
    }

/-- Whether every frontmatter write in a trace happens before the first
yielded top-level View. -/
def writesFirst : List RItem → Bool
  | [] => true
  | .setFrontmatter _ _ :: rest => writesFirst rest
  | .yieldView _ :: rest => (writesOf rest).isEmpty

/-- A trace without writes trivially has all its writes first. -/
theorem writesFirst_of_noWrites :
    ∀ (items : List RItem), writesOf items = [] → writesFirst items = true := by
  intro items
  induction items with
  | nil => intro _; rfl
  | cons it rest ih =>
    cases it with
    | yieldView v =>
      intro h
      simp only [writesOf, List.filterMap_cons] at h
      simp [writesFirst, writesOf, h]
    | setFrontmatter a b =>
      intro h
      simp [writesOf, List.filterMap_cons] at h
/-- Preprocessing leaves any non-soft-break head event untouched. -/
theorem preprocess_cons_of_ne (b : Bool) (e : Event) (r : Range)
    (l : List (Event × Range)) (he : e ≠ Event.SoftBreak) :
    preprocess b ((e, r) :: l) = (e, r) :: preprocess b l := by
  cases b with
  | false => rfl
  | true => simp [preprocess, he]

/-- Running the Tree Builder on a document that begins with a metadata
block holding raw text `s`: with a frontmatter setter supplied, the
trace is the write of `s` followed by the trace of the remainder. -/
theorem runRenderer_metaPrefix (cx : Ctx) (setter : Nat)
    (hfm : cx.frontmatter = some setter) (s : String) (r1 r2 r3 : Range)
    (l : List (Event × Range)) :
    runRenderer cx ((Event.Start Tag.MetadataBlock, r1) :: (Event.Text s, r2)
        :: (Event.End Tag.MetadataBlock, r3) :: l) []
      = (runRenderer cx l []).map
          (fun tail => RItem.setFrontmatter setter s :: tail) := by
  cases hr : runRenderer cx l [] with
  | ok tail => simp [runRenderer, stepLeaf, leafRaw, hfm, hr, Except.map]
  | error err => simp [runRenderer, stepLeaf, leafRaw, hfm, hr, Except.map]

/-- C5: with a frontmatter setter registered, (a) rendering a document
that begins with a recognized metadata block (raw inner text `s`)
followed by metadata-free events writes `s` to the setter exactly once,
and that write precedes every yielded top-level View; (b) rendering a
document with no metadata block performs no write at all. -/
theorem frontmatter_extraction (cx : Ctx) (setter : Nat)
    (hfm : cx.frontmatter = some setter) :
    (∀ (s : String) (r1 r2 r3 : Range) (rest : List (Event × Range))
        (out : RenderOutput),
      (∀ p ∈ rest, isMetaEvent p.1 = false) →
      renderStream cx
          ((Event.Start Tag.MetadataBlock, r1) :: (Event.Text s, r2)
            :: (Event.End Tag.MetadataBlock, r3) :: rest)
        = .ok out →
      writesOf out.items = [(setter, s)] ∧ writesFirst out.items = true) ∧
    (∀ (stream : List (Event × Range)) (out : RenderOutput),
      (∀ p ∈ stream, isMetaEvent p.1 = false) →
      renderStream cx stream = .ok out →
      writesOf out.items = []) := by
  constructor
  · intro s r1 r2 r3 rest out hrest hrun
    unfold renderStream at hrun
    rw [preprocess_cons_of_ne _ _ _ _ (by simp),
        preprocess_cons_of_ne _ _ _ _ (by simp),
        preprocess_cons_of_ne _ _ _ _ (by simp),
        runRenderer_metaPrefix cx setter hfm] at hrun
    cases hr : runRenderer cx (preprocess cx.hard_line_breaks rest) [] with
    | error err => rw [hr] at hrun; simp [Except.map] at hrun
    | ok tail =>
      rw [hr] at hrun
      simp only [Except.map] at hrun
      injection hrun with h
      rw [← h]
      have htail : writesOf tail = [] :=
        noMeta_noWrites cx _ [] tail (preprocess_noMeta _ _ hrest) hr
      constructor
      · simp [writesOf, List.filterMap_cons] at htail ⊢
        exact htail
      · simpa [writesFirst] using writesFirst_of_noWrites tail htail
  · intro stream out hmeta hrun
    unfold renderStream at hrun
    cases hr : runRenderer cx (preprocess cx.hard_line_breaks stream) [] with
    | error err => rw [hr] at hrun; simp [Except.map] at hrun
    | ok items =>
      rw [hr] at hrun
      simp only [Except.map] at hrun
      injection hrun with h
      rw [← h]
      exact noMeta_noWrites cx _ [] items (preprocess_noMeta _ _ hmeta) hr

/-- A context with a registered frontmatter setter (id 3). -/
def cxFm : Ctx := { frontmatter := some 3 }

/-- Witness for C5: a concrete metadata-opening document writes its raw
text once before any View, and a concrete metadata-free document writes
nothing. -/
theorem frontmatter_extraction_witness :
    (writesOf [RItem.setFrontmatter 3 "title: x"] = [(3, "title: x")] ∧
      writesFirst [RItem.setFrontmatter 3 "title: x"] = true) ∧
    writesOf [RItem.yieldView (cxFm.render_text "a" ⟨0, 1⟩)] = [] :=
  ⟨(frontmatter_extraction cxFm 3 rfl).1 "title: x" ⟨0, 4⟩ ⟨4, 12⟩ ⟨12, 16⟩ []
      { view := View.fragment [], mounts := [katexStylesheetMount],
        items := [RItem.setFrontmatter 3 "title: x"] }
      (fun p hp => absurd hp (List.not_mem_nil p)) rfl,
   (frontmatter_extraction cxFm 3 rfl).2 [(Event.Text "a", ⟨0, 1⟩)]
      { view := View.fragment [cxFm.render_text "a" ⟨0, 1⟩],
        mounts := [katexStylesheetMount],
        items := [RItem.yieldView (cxFm.render_text "a" ⟨0, 1⟩)] }
      (by intro p hp; simp only [List.mem_singleton] at hp; rw [hp]; rfl)
      rfl⟩

end Mdw
